import Mathlib

/-!
# CoinBot position-and-risk ledger: a shallow embedding

This file embeds the Position & Risk Ledger of `main.py` (the live program;
`backup.py` is an unparseable concatenation of historical variants) into Lean:
the webhook's open/close branches, the dashboard equity computation, the
risk-control loop's stop-loss / take-profit scan, the kill-switch debounce
state machine, and the liquidation routine.  Python floats are modelled as
rationals; Python `round(x, n)` is modelled as rounding `x * 10^n` to the
nearest integer.  Theorems about the spec's claims follow the definitions.
-/

namespace CoinBot

/-- Side of a position: the `type` field, `"long"` or `"short"`. -/
inductive Side
  | long
  | short
deriving DecidableEq, Repr

/-- An open position, as built by the webhook `buy`/`short` branch of
`main.py` (keys `type`, `volume`, `entry_price`, `margin_used`, `leverage`,
`stop_loss_pct`, `stop_loss_price`, `take_profit_pct`, `take_profit_price`).
`takeProfitPrice` is optional because the risk loop guards it with
`is not None`; the opaque `timestamp` string is kept as `openedAt`. -/
structure Position where
  side : Side
  volume : ℚ
  entryPrice : ℚ
  leverage : ℤ
  marginUsed : ℚ
  stopLossPct : ℚ
  takeProfitPct : ℚ
  stopLossPrice : ℚ
  takeProfitPrice : Option ℚ
  openedAt : String
deriving DecidableEq, Repr

/-- A trade-log entry as appended by `main.py`.  Fields absent from a given
append site (`profit`, `pl_pct`, `leverage`, `avg_entry`) are `none`. -/
structure TradeRecord where
  timestamp : String
  action : String
  symbol : String
  reason : String
  price : ℚ
  amount : ℚ
  profit : Option ℚ
  plPct : Option ℚ
  balance : ℚ
  leverage : Option ℤ
  avgEntry : Option ℚ
deriving DecidableEq, Repr

/-- Per-account state: `balance`, the `positions` dict (an insertion-ordered
association list `symbol -> list of positions`), and the `trade_log`. -/
structure Account where
  balance : ℚ
  positions : List (String × List Position)
  tradeLog : List TradeRecord
deriving DecidableEq, Repr

/-- `account["positions"].get(symbol, [])`. -/
def getPositions (ps : List (String × List Position)) (sym : String) : List Position :=
  match ps.find? (fun e => e.1 = sym) with
  | some e => e.2
  | none => []

/-- Dict assignment `positions[symbol] = l` (replaces in place, else appends,
matching Python's insertion-ordered dict). -/
def setPositions (ps : List (String × List Position)) (sym : String) (l : List Position) :
    List (String × List Position) :=
  match ps with
  | [] => [(sym, l)]
  | e :: rest =>
    if e.1 = sym then (sym, l) :: rest else e :: setPositions rest sym l

/-- `prices.get(symbol, 0)`. -/
def priceOrZero (prices : List (String × ℚ)) (sym : String) : ℚ :=
  match prices.find? (fun e => e.1 = sym) with
  | some e => e.2
  | none => 0

/-- Python `round(x, n)` modelled over rationals: round `x * 10^n` to the
nearest integer and scale back.  (Python rounds ties to even on binary
floats; ties at exact decimal midpoints do not arise in the claims.) -/
def roundTo (n : ℕ) (x : ℚ) : ℚ :=
  ((round (x * 10 ^ n) : ℤ) : ℚ) / 10 ^ n

/-- The webhook's error responses (HTTP 400 bodies), as distinct kinds. -/
inductive WebhookError
  | tradingHalted
  | missingSymbol
  | buyWindowClosed
  | noLivePrice
  | insufficientBalance
  | positionLimitReached
  | noMatchingPositions
deriving DecidableEq, Repr

/-- The four accepted webhook actions. -/
inductive Action
  | buy
  | sell
  | short
  | cover
deriving DecidableEq, Repr

/-- The `buy`/`short` branch of the webhook (`main.py` lines 918-973):
`margin_used = balance * 0.05`; reject if `margin_used <= 0`; compute
`volume = round(margin_used * leverage / price, 6)`; reject if the symbol
already holds 5 positions; otherwise append the position, deduct the margin
and append a trade record carrying no `profit` key. -/
def openPosition (acct : Account) (sym : String) (isBuy : Bool) (price : ℚ)
    (leverage : ℤ) (slPct tpPct : ℚ) (ts reason : String) :
    Except WebhookError (Account × Position) :=
  let marginUsed : ℚ := acct.balance * (1 / 20)
  if marginUsed ≤ 0 then
    Except.error WebhookError.insufficientBalance
  else
    let volume : ℚ := roundTo 6 (marginUsed * (leverage : ℚ) / price)
    if 5 ≤ (getPositions acct.positions sym).length then
      Except.error WebhookError.positionLimitReached
    else
      let slPrice : ℚ := if isBuy then price * (1 - slPct / 100) else price * (1 + slPct / 100)
      let tpPrice : ℚ := if isBuy then price * (1 + tpPct / 100) else price * (1 - tpPct / 100)
      let side : Side := if isBuy then Side.long else Side.short
      let pos : Position :=
        { side := side, volume := volume, entryPrice := price, leverage := leverage,
          marginUsed := marginUsed, stopLossPct := slPct, takeProfitPct := tpPct,
          stopLossPrice := slPrice, takeProfitPrice := some tpPrice, openedAt := ts }
      let newBalance : ℚ := acct.balance - marginUsed
      let logEntry : TradeRecord :=
        { timestamp := ts, action := if isBuy then "buy" else "short", symbol := sym,
          reason := reason, price := price, amount := volume, profit := none,
          plPct := none, balance := roundTo 2 newBalance, leverage := some leverage,
          avgEntry := none }
      Except.ok
        ({ balance := newBalance,
           positions := setPositions acct.positions sym (getPositions acct.positions sym ++ [pos]),
           tradeLog := acct.tradeLog ++ [logEntry] }, pos)

/-- Whether a position matches the side a `sell`/`cover` signal closes. -/
def matchesClose (isSell : Bool) (p : Position) : Bool :=
  if isSell then p.side = Side.long else p.side = Side.short

/-- `total_volume = sum(p["volume"] for p in positions)`. -/
def total_volume (l : List Position) : ℚ := (l.map (·.volume)).sum

/-- `total_margin = sum(p["margin_used"] for p in positions)`. -/
def total_margin (l : List Position) : ℚ := (l.map (·.marginUsed)).sum

/-- `avg_entry = sum(entry*volume) / total_volume if total_volume > 0 else 0`. -/
def avg_entry (l : List Position) : ℚ :=
  if 0 < total_volume l then (l.map (fun p => p.entryPrice * p.volume)).sum / total_volume l
  else 0

/-- The `sell`/`cover` branch of the webhook (`main.py` lines 975-1013):
filter the matching side, reject if empty, close the whole batch at the
signal price with volume-weighted average entry, credit
`total_margin + profit`, drop the closed positions and append one summary
trade record (which carries no `leverage` key). -/
def closePositions (acct : Account) (sym : String) (isSell : Bool) (price : ℚ)
    (ts reason : String) : Except WebhookError Account :=
  let positions := (getPositions acct.positions sym).filter (matchesClose isSell)
  if positions.isEmpty then
    Except.error WebhookError.noMatchingPositions
  else
    let totalVolume : ℚ := total_volume positions
    let totalMargin : ℚ := total_margin positions
    let avgEntry : ℚ := avg_entry positions
    let profit : ℚ := if isSell then (price - avgEntry) * totalVolume else (avgEntry - price) * totalVolume
    let plPct0 : ℚ := if 0 < avgEntry then (price - avgEntry) / avgEntry * 100 else 0
    let plPct : ℚ := if isSell then plPct0 else -plPct0
    let newBalance : ℚ := acct.balance + totalMargin + profit
    let remaining := (getPositions acct.positions sym).filter (fun p => ¬ (p ∈ positions))
    let logEntry : TradeRecord :=
      { timestamp := ts, action := if isSell then "sell" else "cover", symbol := sym,
        reason := reason, price := price, amount := totalVolume,
        profit := some (roundTo 8 profit), plPct := some (roundTo 4 plPct),
        balance := roundTo 8 newBalance, leverage := none,
        avgEntry := some (roundTo 8 avgEntry) }
    Except.ok
      { balance := newBalance,
        positions := setPositions acct.positions sym remaining,
        tradeLog := acct.tradeLog ++ [logEntry] }

/-- The webhook dispatch (`main.py` lines 869-1017), after bot-id and action
parsing: the kill-switch gate comes first, then the symbol check, the
buy-hours window (opens only), the live-price requirement, and the branch.
`price` is the quote lookup's result (`none` models no live price). -/
def webhook (killActive : Bool) (acct : Account) (act : Action) (sym : String)
    (inBuyWindow : Bool) (price : Option ℚ) (leverage : ℤ) (slPct tpPct : ℚ)
    (ts reason : String) : Except WebhookError Account :=
  if killActive then
    Except.error WebhookError.tradingHalted
  else if sym = "" then
    Except.error WebhookError.missingSymbol
  else
    match act with
    | Action.buy | Action.short =>
      if ¬ inBuyWindow then
        Except.error WebhookError.buyWindowClosed
      else
        match price with
        | none => Except.error WebhookError.noLivePrice
        | some pr =>
          if pr ≤ 0 then Except.error WebhookError.noLivePrice
          else (openPosition acct sym (act = Action.buy) pr leverage slPct tpPct ts reason).map (·.1)
    | Action.sell | Action.cover =>
      match price with
      | none => Except.error WebhookError.noLivePrice
      | some pr =>
        if pr ≤ 0 then Except.error WebhookError.noLivePrice
        else closePositions acct sym (act = Action.sell) pr ts reason

/-- One row of `calculate_position_stats` (`main.py` lines 330-375): the
per-position dashboard statistics the equity computation consumes. -/
structure PosStat where
  symbol : String
  marginUsed : ℚ
  positionSize : ℚ
  pnl : ℚ
  stopLossPrice : ℚ
  takeProfitPrice : ℚ
deriving DecidableEq, Repr

/-- The per-position body of `calculate_position_stats`: Python's
`if not margin_used and entry and volume and leverage` truthiness gate for
the margin fallback, the side-signed `pnl` at the current price (which is
`prices.get(symbol, 0)`, so `0` when no quote exists), and the display
threshold prices recomputed from the percentages. -/
def statOf (sym : String) (cp : ℚ) (p : Position) : PosStat :=
  let marginUsed : ℚ :=
    if p.marginUsed = 0 ∧ p.entryPrice ≠ 0 ∧ p.volume ≠ 0 ∧ p.leverage ≠ 0 then
      p.entryPrice * p.volume / (p.leverage : ℚ)
    else p.marginUsed
  let pnl : ℚ :=
    match p.side with
    | Side.long => (cp - p.entryPrice) * p.volume
    | Side.short => (p.entryPrice - cp) * p.volume
  let slPrice : ℚ :=
    match p.side with
    | Side.long => p.entryPrice * (1 - p.stopLossPct / 100)
    | Side.short => p.entryPrice * (1 + p.stopLossPct / 100)
  let tpPrice : ℚ :=
    match p.side with
    | Side.long => p.entryPrice * (1 + p.takeProfitPct / 100)
    | Side.short => p.entryPrice * (1 - p.takeProfitPct / 100)
  { symbol := sym, marginUsed := marginUsed, positionSize := marginUsed * (p.leverage : ℚ),
    pnl := pnl, stopLossPrice := slPrice, takeProfitPrice := tpPrice }

/-- `calculate_position_stats(positions, prices)`: one stat row per open
position, priced at `prices.get(symbol, 0)`. -/
def calculate_position_stats (positions : List (String × List Position))
    (prices : List (String × ℚ)) : List PosStat :=
  (positions.map (fun e => e.2.map (statOf e.1 (priceOrZero prices e.1)))).flatten

/-- The dashboard/risk-loop equity (`main.py` lines 459-465 and 1049-1053):
`balance + total_margin + total_pl` over the stat rows. -/
def dashboardEquity (acct : Account) (prices : List (String × ℚ)) : ℚ :=
  let stats := calculate_position_stats acct.positions prices
  acct.balance + (stats.map (·.marginUsed)).sum + (stats.map (·.pnl)).sum

/-- The equity formula in C6's wording: identical, except that a position
whose symbol has **no available quote** contributes exactly `0` unrealized
PnL (its margin still counts).  Stated from the spec's words to compare
against `dashboardEquity`. -/
def equityClaimC6 (acct : Account) (prices : List (String × ℚ)) : ℚ :=
  acct.balance
    + ((calculate_position_stats acct.positions prices).map (·.marginUsed)).sum
    + (acct.positions.map (fun e =>
        match prices.find? (fun q => q.1 = e.1) with
        | none => 0
        | some q => ((e.2.map (statOf e.1 q.2)).map (·.pnl)).sum)).sum

/-- Long: `price <= stop_loss_price`; Short: `price >= stop_loss_price`
(`main.py` lines 1102-1107). -/
def slTrigger (cp : ℚ) (p : Position) : Bool :=
  match p.side with
  | Side.long => cp ≤ p.stopLossPrice
  | Side.short => p.stopLossPrice ≤ cp

/-- Take-profit trigger, guarded by `take_profit_price is not None`. -/
def tpTrigger (cp : ℚ) (p : Position) : Bool :=
  match p.side, p.takeProfitPrice with
  | _, none => false
  | Side.long, some tp => tp ≤ cp
  | Side.short, some tp => cp ≤ tp

/-- The exit price the risk loop realizes on trigger: the stop-loss price if
the stop fired (priority), else the take-profit price, else (unreachable
`"Unknown"` branch) the live price. -/
def exitPriceOf (cp : ℚ) (p : Position) : ℚ :=
  if slTrigger cp p then p.stopLossPrice
  else if tpTrigger cp p then p.takeProfitPrice.getD cp
  else cp

/-- Realized profit of closing `p` at `exitP`: side-signed on notional
volume, exactly as every close site in `main.py` computes it. -/
def closeProfit (exitP : ℚ) (p : Position) : ℚ :=
  match p.side with
  | Side.long => (exitP - p.entryPrice) * p.volume
  | Side.short => (p.entryPrice - exitP) * p.volume

/-- The trade record the risk loop appends when closing one position. -/
def triggerRecord (sym ts : String) (cp : ℚ) (balAfter : ℚ) (p : Position) : TradeRecord :=
  { timestamp := ts,
    action := if p.side = Side.long then "sell" else "cover",
    symbol := sym,
    reason := if slTrigger cp p then "Stop Loss" else "Take Profit",
    price := exitPriceOf cp p, amount := p.volume,
    profit := some (roundTo 8 (closeProfit (exitPriceOf cp p) p)),
    plPct := none, balance := roundTo 8 balAfter,
    leverage := some p.leverage, avgEntry := some (roundTo 8 p.entryPrice) }

/-- The inner per-position loop of the stop-loss/take-profit scan
(`main.py` lines 1085-1146) for one symbol at live price `cp`: a triggered
position is closed **individually** at its threshold price (balance credited
with `margin_used + profit`, one record appended); an untriggered position
is kept.  Returns (final balance, kept positions, records in order). -/
def scanSymbol (sym ts : String) (cp : ℚ) :
    ℚ → List Position → ℚ × List Position × List TradeRecord
  | bal, [] => (bal, [], [])
  | bal, p :: rest =>
    if slTrigger cp p || tpTrigger cp p then
      let bal1 := bal + p.marginUsed + closeProfit (exitPriceOf cp p) p
      let r := scanSymbol sym ts cp bal1 rest
      (r.1, r.2.1, triggerRecord sym ts cp bal1 p :: r.2.2)
    else
      let r := scanSymbol sym ts cp bal rest
      (r.1, p :: r.2.1, r.2.2)

/-- The outer per-symbol loop of the scan: a symbol whose live price is
missing or non-positive is skipped (`continue`), its positions untouched. -/
def riskScanEntries (ts : String) (prices : List (String × ℚ)) :
    ℚ → List (String × List Position) → ℚ × List (String × List Position) × List TradeRecord
  | bal, [] => (bal, [], [])
  | bal, (sym, l) :: rest =>
    let cp := priceOrZero prices sym
    if cp ≤ 0 then
      let r := riskScanEntries ts prices bal rest
      (r.1, (sym, l) :: r.2.1, r.2.2)
    else
      let s := scanSymbol sym ts cp bal l
      let r := riskScanEntries ts prices s.1 rest
      (r.1, (sym, s.2.1) :: r.2.1, s.2.2 ++ r.2.2)

/-- One stop-loss/take-profit pass over a whole account. -/
def riskScanAccount (acct : Account) (prices : List (String × ℚ)) (ts : String) : Account :=
  let r := riskScanEntries ts prices acct.balance acct.positions
  { balance := r.1, positions := r.2.1, tradeLog := acct.tradeLog ++ r.2.2 }

/-- The inner loop of `liquidate_all_positions` (`main.py` lines 408-437):
close every position of one symbol at the live price `cp`, crediting
`margin_used + profit` and appending one record per position. -/
def liquidateSymbol (sym ts reason : String) (cp : ℚ) :
    ℚ → List Position → ℚ × List TradeRecord
  | bal, [] => (bal, [])
  | bal, p :: rest =>
    let profit := closeProfit cp p
    let bal1 := bal + p.marginUsed + profit
    let logEntry : TradeRecord :=
      { timestamp := ts,
        action := if p.side = Side.long then "sell" else "cover",
        symbol := sym, reason := reason, price := cp, amount := p.volume,
        profit := some (roundTo 8 profit), plPct := none,
        balance := roundTo 8 bal1, leverage := some p.leverage,
        avgEntry := some (roundTo 8 p.entryPrice) }
    let r := liquidateSymbol sym ts reason cp bal1 rest
    (r.1, logEntry :: r.2)

/-- The outer loop of `liquidate_all_positions` (`main.py` lines 400-441):
a symbol with no valid price is **skipped** ("Skipping liquidation ... due
to invalid price"), its positions left open; a symbol with a valid price has
all its positions closed and replaced by `[]`.  The `Bool` is the `modified`
flag: whether any position was closed. -/
def liquidateEntries (ts reason : String) (prices : List (String × ℚ)) :
    ℚ → List (String × List Position) → ℚ × List (String × List Position) × List TradeRecord × Bool
  | bal, [] => (bal, [], [], false)
  | bal, (sym, l) :: rest =>
    let cp := priceOrZero prices sym
    if cp ≤ 0 then
      let r := liquidateEntries ts reason prices bal rest
      (r.1, (sym, l) :: r.2.1, r.2.2.1, r.2.2.2)
    else
      let s := liquidateSymbol sym ts reason cp bal l
      let r := liquidateEntries ts reason prices s.1 rest
      (r.1, (sym, []) :: r.2.1, s.2 ++ r.2.2.1, r.2.2.2 || !l.isEmpty)

/-- `liquidate_all_positions(bot_id, account, prices, reason)`. -/
def liquidate_all_positions (acct : Account) (prices : List (String × ℚ))
    (ts reason : String) : Account × Bool :=
  let r := liquidateEntries ts reason prices acct.balance acct.positions
  ({ balance := r.1, positions := r.2.1, tradeLog := acct.tradeLog ++ r.2.2.1 }, r.2.2.2)

/-- Per-account kill-switch monitor state: `kill_switch_breach_start` and
the persisted `active` flag. -/
structure KSState where
  breachStart : Option ℚ
  active : Bool
deriving DecidableEq, Repr

/-- One risk-loop observation for the kill switch: the tick's wall-clock
time (seconds), whether the quote data is stale
(`now - last_price_update > MAX_STALE_PRICE`), and the computed daily
drawdown `loss_pct`. -/
structure KSTick where
  now : ℚ
  stale : Bool
  lossPct : ℚ
deriving DecidableEq, Repr

/-- `KILL_SWITCH_DELAY = 300` seconds (`main.py` line 28). -/
def KILL_SWITCH_DELAY : ℚ := 300

/-- One tick of the kill-switch logic for one account (`main.py` lines
1037-1078): an active kill switch skips the account entirely (`continue`);
stale prices clear the breach timer; a drawdown at or above the threshold
starts the timer, and fires (liquidation, `active := true`) only when the
timer has been running for at least `KILL_SWITCH_DELAY`; a drawdown below
the threshold clears the timer.  The `Bool` reports whether the kill switch
fired (liquidation happened) on this tick. -/
def ksStep (thr : ℚ) (st : KSState) (t : KSTick) : KSState × Bool :=
  if st.active then (st, false)
  else if t.stale then ({ st with breachStart := none }, false)
  else if thr ≤ t.lossPct then
    match st.breachStart with
    | none => ({ st with breachStart := some t.now }, false)
    | some s =>
      if KILL_SWITCH_DELAY ≤ t.now - s then ({ breachStart := some s, active := true }, true)
      else (st, false)
  else ({ st with breachStart := none }, false)

/-- Run the kill-switch monitor over a same-day sequence of ticks, counting
liquidations. -/
def runKS (thr : ℚ) : KSState → List KSTick → KSState × ℕ
  | st, [] => (st, 0)
  | st, t :: ts =>
    let s := ksStep thr st t
    let r := runKS thr s.1 ts
    (r.1, (if s.2 then 1 else 0) + r.2)

/-- The kill-switch firing branch (`main.py` lines 1070-1076): call
`liquidate_all_positions`, then set `active := true` **unconditionally** —
the `modified` flag and any skipped symbols are not consulted. -/
def ksFire (acct : Account) (prices : List (String × ℚ)) (ts : String) : Account × Bool :=
  let r := liquidate_all_positions acct prices ts "Kill Switch Triggered"
  (r.1, true)

/-- A tick that observes a continuous breach: fresh prices and a drawdown at
or above the threshold. -/
def breachTick (thr : ℚ) (t : KSTick) : Prop :=
  t.stale = false ∧ thr ≤ t.lossPct

instance (thr : ℚ) (t : KSTick) : Decidable (breachTick thr t) := by
  unfold breachTick; infer_instance

/-- One risk-loop tick over the configured bots (`main.py` lines 1024-1152):
the `try` wraps the **whole** per-bot `for` loop, so evaluating bots one by
one stops at the first bot whose evaluation raises (`none`); the exception
is then caught and logged.  Returns the results of the bots that were
evaluated and whether an exception was caught this tick. -/
def tickBots {α β : Type} (evalBot : α → Option β) : List α → List β × Bool
  | [] => ([], false)
  | a :: rest =>
    match evalBot a with
    | none => ([], true)
    | some b =>
      let r := tickBots evalBot rest
      (b :: r.1, r.2)

/-- The `while True` monitor loop: every tick runs regardless of whether an
earlier tick caught an exception (the `except` clause only logs). -/
def runLoop {α β : Type} (evalBot : α → Option β) (ticks : List (List α)) :
    List (List β × Bool) :=
  ticks.map (tickBots evalBot)

/-- A webhook close as a handler sees it: the account it loaded, mutated on
success and left untouched on error, plus the success flag of its HTTP
response. -/
def closeOutcome (acct : Account) (sym : String) (isSell : Bool) (price : ℚ)
    (ts reason : String) : Account × Bool :=
  match closePositions acct sym isSell price ts reason with
  | Except.ok a => (a, true)
  | Except.error _ => (acct, false)

/-- Two concurrent close handlers under the schedule the code permits:
`file_lock` in `main.py` is held only inside `load_account` and
`save_account` individually, so both handlers can `load_account` the same
snapshot before either `save_account` runs; each then computes on its own
copy and the saves land in order (last write wins). -/
def twoClosesInterleaved (store : Account) (sym : String) (isSell : Bool) (price : ℚ)
    (ts reason : String) : Account × Bool × Bool :=
  let r1 := closeOutcome store sym isSell price ts reason
  let r2 := closeOutcome store sym isSell price ts reason
  let store1 := if r1.2 then r1.1 else store
  let store2 := if r2.2 then r2.1 else store1
  (store2, r1.2, r2.2)

/-- The same two closes run in a serial order: the second loads the state
the first saved. -/
def twoClosesSerial (store : Account) (sym : String) (isSell : Bool) (price : ℚ)
    (ts reason : String) : Account × Bool × Bool :=
  let r1 := closeOutcome store sym isSell price ts reason
  let r2 := closeOutcome r1.1 sym isSell price ts reason
  (r2.1, r1.2, r2.2)

/-- The batch of positions a `sell`/`cover` signal closes. -/
def closedBatch (acct : Account) (sym : String) (isSell : Bool) : List Position :=
  (getPositions acct.positions sym).filter (matchesClose isSell)

/-- Overwrite a position's leverage field, leaving everything else alone. -/
def setLeverage (k : ℤ) (p : Position) : Position := { p with leverage := k }

/-- Overwrite the leverage of every open position of an account. -/
def mapLeverage (k : ℤ) (acct : Account) : Account :=
  { acct with positions := acct.positions.map (fun e => (e.1, e.2.map (setLeverage k))) }

/-- A webhook call as the store sees it: on success the handler saves the
mutated account; on an error response `save_account` is never reached and
the stored account is untouched. -/
def webhookOutcome (killActive : Bool) (acct : Account) (act : Action) (sym : String)
    (inBuyWindow : Bool) (price : Option ℚ) (leverage : ℤ) (slPct tpPct : ℚ)
    (ts reason : String) : Account × Bool :=
  match webhook killActive acct act sym inBuyWindow price leverage slPct tpPct ts reason with
  | Except.ok a => (a, true)
  | Except.error _ => (acct, false)

/-- The volume of the position created by an open call, when it succeeded. -/
def openVolumeOf (r : Except WebhookError (Account × Position)) : Option ℚ :=
  r.toOption.map (fun out => out.2.volume)

/-! ## Concrete fixtures

The spec's worked example (§8): balance 1000, margin fraction 0.05,
leverage 5, buy at 100 gives margin 50 and volume 2.5; the stop-loss and
take-profit prices for 2.5 % / 3 % are 97.5 and 103. -/

/-- The position the worked example opens: Long 2.5 BTC-equivalent at entry
100, margin 50, leverage 5, thresholds 97.5 / 103. -/
def posLong : Position :=
  { side := Side.long, volume := 5 / 2, entryPrice := 100, leverage := 5,
    marginUsed := 50, stopLossPct := 5 / 2, takeProfitPct := 3,
    stopLossPrice := 195 / 2, takeProfitPrice := some 103, openedAt := "t0" }

/-- The account right after that open: balance 950, one long position. -/
def acctOne : Account :=
  { balance := 950, positions := [("BTCUSDT", [posLong])], tradeLog := [] }

/-- A fresh account with the starting balance. -/
def acctStart : Account := { balance := 1000, positions := [], tradeLog := [] }

/-- An account whose balance is so small that the 6-decimal rounding of the
volume collapses to zero at a six-figure price. -/
def acctTinyBalance : Account := { balance := 1 / 1000, positions := [], tradeLog := [] }

/-- An account already holding five positions on one symbol. -/
def acctFivePositions : Account :=
  { balance := 1000,
    positions := [("BTCUSDT", [posLong, posLong, posLong, posLong, posLong])],
    tradeLog := [] }

/-- A short position on a symbol that will have no quote available. -/
def posShortLone : Position :=
  { side := Side.short, volume := 1, entryPrice := 50, leverage := 5,
    marginUsed := 10, stopLossPct := 5 / 2, takeProfitPct := 3,
    stopLossPrice := 205 / 4, takeProfitPrice := some (97 / 2), openedAt := "t0" }

/-- A long position used to exhibit the missing-quote PnL of the dashboard. -/
def posNoQuote : Position :=
  { side := Side.long, volume := 2, entryPrice := 100, leverage := 5,
    marginUsed := 40, stopLossPct := 5 / 2, takeProfitPct := 3,
    stopLossPrice := 195 / 2, takeProfitPrice := some 103, openedAt := "t0" }

/-- Balance 500 and one long position on a symbol with no quote. -/
def acctNoQuote : Account :=
  { balance := 500, positions := [("XRPUSDT", [posNoQuote])], tradeLog := [] }

/-- Two symbols, of which only the first will have a valid price at
liquidation time. -/
def acctPartial : Account :=
  { balance := 100, positions := [("AAA", [posLong]), ("BBB", [posShortLone])],
    tradeLog := [] }

/-- A per-bot evaluation in which bot `0` raises (`none`) and every other
bot evaluates fine. -/
def evalSkipDemo : ℕ → Option ℕ := fun n => if n = 0 then none else some n

/-! ## C10 -/

/-- C10: while the kill switch is active, the webhook rejects **every**
inbound signal for the account — `sell` and `cover` closes included, not
only `buy`/`short` opens — because the kill-switch gate precedes the
action dispatch; so no external signal can close a position until the
switch is reset. -/
theorem webhook_rejects_all_when_kill_switch_active
    (acct : Account) (act : Action) (sym : String) (inBuyWindow : Bool)
    (price : Option ℚ) (leverage : ℤ) (slPct tpPct : ℚ) (ts reason : String) :
    webhook true acct act sym inBuyWindow price leverage slPct tpPct ts reason
      = Except.error WebhookError.tradingHalted := by
  simp [webhook]

/-! ## C3 -/

/-- The kept positions of a symbol scan are exactly the untriggered ones. -/
lemma scanSymbol_kept (sym ts : String) (cp bal : ℚ) (l : List Position) :
    (scanSymbol sym ts cp bal l).2.1
      = l.filter (fun p => !(slTrigger cp p || tpTrigger cp p)) := by
  induction l generalizing bal with
  | nil => rfl
  | cons p rest ih =>
    by_cases h : (slTrigger cp p || tpTrigger cp p) = true
    · rw [List.filter_cons_of_neg (by simp [h])]
      simpa [scanSymbol, h] using ih _
    · rw [List.filter_cons_of_pos (by simp [Bool.not_eq_true] at h ⊢; exact h)]
      simpa [scanSymbol, h] using ih _

/-- Each close the scan books is priced at the triggered position's own
threshold price. -/
lemma scanSymbol_prices (sym ts : String) (cp bal : ℚ) (l : List Position) :
    ((scanSymbol sym ts cp bal l).2.2).map (·.price)
      = (l.filter (fun p => slTrigger cp p || tpTrigger cp p)).map (exitPriceOf cp) := by
  induction l generalizing bal with
  | nil => rfl
  | cons p rest ih =>
    by_cases h : (slTrigger cp p || tpTrigger cp p) = true
    · rw [List.filter_cons]
      simp only [h, if_true]
      simpa [scanSymbol, h, triggerRecord] using ih _
    · rw [List.filter_cons]
      simp only [h, if_false]
      simpa [scanSymbol, h] using ih _

/-- C3: on a risk tick, a position whose stop-loss or take-profit threshold
is crossed is closed **individually** — every untriggered position of the
symbol stays open — and the realized exit price is exactly the threshold
(the stored stop-loss price when the stop fired, the stored take-profit
price when only the target fired), never the live price. -/
theorem risk_trigger_closes_single_position_at_threshold
    (sym ts : String) (cp bal : ℚ) (l : List Position) :
    (scanSymbol sym ts cp bal l).2.1
        = l.filter (fun p => !(slTrigger cp p || tpTrigger cp p))
    ∧ ((scanSymbol sym ts cp bal l).2.2).map (·.price)
        = (l.filter (fun p => slTrigger cp p || tpTrigger cp p)).map (exitPriceOf cp)
    ∧ (∀ p : Position, slTrigger cp p = true → exitPriceOf cp p = p.stopLossPrice)
    ∧ (∀ p : Position, slTrigger cp p = false → tpTrigger cp p = true →
        p.takeProfitPrice = some (exitPriceOf cp p)) := by
  refine ⟨scanSymbol_kept sym ts cp bal l, scanSymbol_prices sym ts cp bal l, ?_, ?_⟩
  · intro p hsl
    simp [exitPriceOf, hsl]
  · intro p hsl htp
    cases h : p.takeProfitPrice with
    | none => cases hs : p.side <;> simp [tpTrigger, hs, h] at htp
    | some tp => simp [exitPriceOf, hsl, htp, h]

/-- C3 witness: the claim's concrete test — a Long with entry 100 and
stop-loss 2.5 % (stored threshold 97.5) observed at live price 97.4 is
closed, alone, at exactly 97.5. -/
theorem risk_trigger_witness :
    (scanSymbol "BTCUSDT" "t1" (487 / 5) 950 [posLong]).2.1 = []
    ∧ ((scanSymbol "BTCUSDT" "t1" (487 / 5) 950 [posLong]).2.2).map (·.price)
        = [posLong.stopLossPrice]
    ∧ posLong.stopLossPrice = 195 / 2 := by
  have h := risk_trigger_closes_single_position_at_threshold "BTCUSDT" "t1" (487 / 5) 950 [posLong]
  have hsl : slTrigger (487 / 5) posLong = true := by
    simp only [slTrigger, posLong]
    norm_num
  refine ⟨?_, ?_, rfl⟩
  · rw [h.1]
    simp [List.filter, hsl]
  · rw [h.2.1]
    rw [List.filter_cons_of_pos (by simp [hsl])]
    simp [h.2.2.1 posLong hsl]

/-! ## C2 -/

/-- Rounding to `n` decimal places moves a rational by at most half a unit
in the last place. -/
lemma abs_roundTo_sub_le (n : ℕ) (x : ℚ) : |roundTo n x - x| ≤ 1 / (2 * 10 ^ n) := by
  unfold roundTo
  have h10 : (0 : ℚ) < 10 ^ n := by positivity
  have hrw : ((round (x * 10 ^ n) : ℤ) : ℚ) / 10 ^ n - x
      = (((round (x * 10 ^ n) : ℤ) : ℚ) - x * 10 ^ n) / 10 ^ n := by
    field_simp
    ring
  rw [hrw, abs_div, abs_of_pos h10, div_le_div_iff₀ h10 (by positivity), abs_sub_comm]
  have h := abs_sub_round (x * 10 ^ n)
  nlinarith [h, h10]

/-- C2: a successful open at a positive signal price commits
`marginUsed = balance * 0.05` as margin, sets
`volume = round(marginUsed * leverage / signalPrice, 6)`, leaves
`balance_after = balance_before - marginUsed`, satisfies
`volume * entryPrice ≈ marginUsed * leverage` within half a unit of the
6-decimal rounding step, and appends exactly one trade record with no
profit field. -/
theorem open_margin_volume_balance
    (acct : Account) (sym : String) (isBuy : Bool) (price : ℚ) (lev : ℤ)
    (slPct tpPct : ℚ) (ts reason : String) (acctA : Account) (pos : Position)
    (hp : 0 < price)
    (hok : openPosition acct sym isBuy price lev slPct tpPct ts reason
      = Except.ok (acctA, pos)) :
    pos.marginUsed = acct.balance * (1 / 20)
    ∧ pos.volume = roundTo 6 (pos.marginUsed * (lev : ℚ) / price)
    ∧ acctA.balance = acct.balance - pos.marginUsed
    ∧ |pos.volume * pos.entryPrice - pos.marginUsed * (lev : ℚ)| ≤ price / (2 * 10 ^ 6)
    ∧ ∃ r : TradeRecord, acctA.tradeLog = acct.tradeLog ++ [r] ∧ r.profit = none := by
  have hp' : price ≠ 0 := ne_of_gt hp
  unfold openPosition at hok
  by_cases h1 : acct.balance * (1 / 20) ≤ 0
  · simp only [if_pos h1] at hok
    exact absurd hok (by simp)
  · by_cases h2 : 5 ≤ (getPositions acct.positions sym).length
    · simp only [if_neg h1, if_pos h2] at hok
      exact absurd hok (by simp)
    · simp only [if_neg h1, if_neg h2, Except.ok.injEq, Prod.mk.injEq] at hok
      obtain ⟨hA, hP⟩ := hok
      subst hA
      subst hP
      refine ⟨rfl, rfl, rfl, ?_, ⟨_, rfl, rfl⟩⟩
      have hsplit : roundTo 6 (acct.balance * (1 / 20) * (lev : ℚ) / price) * price
            - acct.balance * (1 / 20) * (lev : ℚ)
          = (roundTo 6 (acct.balance * (1 / 20) * (lev : ℚ) / price)
              - acct.balance * (1 / 20) * (lev : ℚ) / price) * price := by
        field_simp
        ring
      show |roundTo 6 (acct.balance * (1 / 20) * (lev : ℚ) / price) * price
          - acct.balance * (1 / 20) * (lev : ℚ)| ≤ price / (2 * 10 ^ 6)
      rw [hsplit, abs_mul, abs_of_pos hp]
      calc |roundTo 6 (acct.balance * (1 / 20) * (lev : ℚ) / price)
              - acct.balance * (1 / 20) * (lev : ℚ) / price| * price
          ≤ (1 / (2 * 10 ^ 6)) * price :=
            mul_le_mul_of_nonneg_right (abs_roundTo_sub_le 6 _) hp.le
        _ = price / (2 * 10 ^ 6) := by ring

/-- C2 witness: the spec's worked example — balance 1000, leverage 5, buy
at 100 gives margin 50, volume 2.5 and balance 950. -/
theorem open_margin_volume_balance_witness :
    ∃ acctA pos, openPosition acctStart "BTCUSDT" true 100 5 (5 / 2) 3 "t0" "sig"
        = Except.ok (acctA, pos)
      ∧ pos.marginUsed = 50 ∧ pos.volume = 5 / 2 ∧ acctA.balance = 950 := by
  cases hok : openPosition acctStart "BTCUSDT" true 100 5 (5 / 2) 3 "t0" "sig" with
  | error e =>
    rw [openPosition] at hok
    norm_num [acctStart, getPositions] at hok
    exact Except.noConfusion hok
  | ok out =>
    have h := open_margin_volume_balance acctStart "BTCUSDT" true 100 5 (5 / 2) 3 "t0" "sig"
      out.1 out.2 (by norm_num) hok
    refine ⟨out.1, out.2, rfl, ?_, ?_, ?_⟩
    · rw [h.1]; norm_num [acctStart]
    · rw [h.2.1, h.1]
      norm_num [acctStart, roundTo, round_eq]
    · rw [h.2.2.1, h.1]; norm_num [acctStart]

/-! ## C1 -/

lemma getPositions_mapVal (g : Position → Position) (ps : List (String × List Position))
    (sym : String) :
    getPositions (ps.map (fun e => (e.1, e.2.map g))) sym = (getPositions ps sym).map g := by
  induction ps with
  | nil => rfl
  | cons e rest ih =>
    by_cases h : e.1 = sym
    · simp [getPositions, List.find?, h]
    · simpa [getPositions, List.find?, h] using ih

lemma filter_matchesClose_map (isSell : Bool) (k : ℤ) (l : List Position) :
    (l.map (setLeverage k)).filter (matchesClose isSell)
      = (l.filter (matchesClose isSell)).map (setLeverage k) := by
  rw [List.filter_map]
  rfl

lemma total_volume_map_setLeverage (k : ℤ) (l : List Position) :
    total_volume (l.map (setLeverage k)) = total_volume l := by
  unfold total_volume
  rw [List.map_map]
  rfl

lemma total_margin_map_setLeverage (k : ℤ) (l : List Position) :
    total_margin (l.map (setLeverage k)) = total_margin l := by
  unfold total_margin
  rw [List.map_map]
  rfl

lemma weighted_entry_map_setLeverage (k : ℤ) (l : List Position) :
    ((l.map (setLeverage k)).map (fun p => p.entryPrice * p.volume)).sum
      = (l.map (fun p => p.entryPrice * p.volume)).sum := by
  rw [List.map_map]
  rfl

lemma avg_entry_map_setLeverage (k : ℤ) (l : List Position) :
    avg_entry (l.map (setLeverage k)) = avg_entry l := by
  unfold avg_entry
  rw [total_volume_map_setLeverage, weighted_entry_map_setLeverage]

/-- Closing a nonempty batch always succeeds, with the balance credited by
`total_margin + profit` as computed by the close branch. -/
lemma closePositions_ok (acct : Account) (sym : String) (isSell : Bool) (price : ℚ)
    (ts reason : String) (hne : closedBatch acct sym isSell ≠ []) :
    ∃ acctA, closePositions acct sym isSell price ts reason = Except.ok acctA
      ∧ acctA.balance
          = acct.balance + total_margin (closedBatch acct sym isSell)
            + (if isSell
                then (price - avg_entry (closedBatch acct sym isSell))
                      * total_volume (closedBatch acct sym isSell)
                else (avg_entry (closedBatch acct sym isSell) - price)
                      * total_volume (closedBatch acct sym isSell))
      ∧ ∃ r : TradeRecord, acctA.tradeLog = acct.tradeLog ++ [r]
          ∧ r.profit = some (roundTo 8
              (if isSell
                then (price - avg_entry (closedBatch acct sym isSell))
                      * total_volume (closedBatch acct sym isSell)
                else (avg_entry (closedBatch acct sym isSell) - price)
                      * total_volume (closedBatch acct sym isSell))) := by
  have hE : ((getPositions acct.positions sym).filter (matchesClose isSell)).isEmpty = false := by
    rw [List.isEmpty_eq_false]
    exact hne
  simp only [closePositions, hE, Bool.false_eq_true, if_false]
  exact ⟨_, rfl, rfl, _, rfl, rfl⟩

/-- C1: a successful close (sell or cover with at least one matching-side
position) realizes `profit = (exitPrice - avgEntry) * totalVolume` for sell
and `(avgEntry - exitPrice) * totalVolume` for cover, where `avgEntry` is
the volume-weighted average entry of the closed batch; the balance becomes
`balance_before + totalMargin + profit`; and leverage is not multiplied into
the profit: rewriting every position's leverage to any value leaves the
post-close balance unchanged. -/
theorem close_realizes_leverage_neutral_profit
    (acct : Account) (sym : String) (isSell : Bool) (price : ℚ) (ts reason : String)
    (hne : closedBatch acct sym isSell ≠ [])
    (hv : 0 < total_volume (closedBatch acct sym isSell)) :
    ∃ acctA, closePositions acct sym isSell price ts reason = Except.ok acctA
      ∧ acctA.balance
          = acct.balance + total_margin (closedBatch acct sym isSell)
            + (if isSell
                then (price - ((closedBatch acct sym isSell).map
                        (fun p => p.entryPrice * p.volume)).sum
                        / total_volume (closedBatch acct sym isSell))
                      * total_volume (closedBatch acct sym isSell)
                else (((closedBatch acct sym isSell).map
                        (fun p => p.entryPrice * p.volume)).sum
                        / total_volume (closedBatch acct sym isSell) - price)
                      * total_volume (closedBatch acct sym isSell))
      ∧ (∀ k : ℤ, ∃ acctB,
            closePositions (mapLeverage k acct) sym isSell price ts reason = Except.ok acctB
            ∧ acctB.balance = acctA.balance) := by
  have havg : avg_entry (closedBatch acct sym isSell)
      = ((closedBatch acct sym isSell).map (fun p => p.entryPrice * p.volume)).sum
          / total_volume (closedBatch acct sym isSell) := by
    unfold avg_entry
    rw [if_pos hv]
  obtain ⟨acctA, hok, hbal, -⟩ := closePositions_ok acct sym isSell price ts reason hne
  refine ⟨acctA, hok, by rw [hbal, havg], ?_⟩
  intro k
  have hbatchk : closedBatch (mapLeverage k acct) sym isSell
      = (closedBatch acct sym isSell).map (setLeverage k) := by
    unfold closedBatch mapLeverage
    rw [getPositions_mapVal, filter_matchesClose_map]
  have hnek : closedBatch (mapLeverage k acct) sym isSell ≠ [] := by
    rw [hbatchk]
    simpa using hne
  obtain ⟨acctB, hokB, hbalB, -⟩ := closePositions_ok (mapLeverage k acct) sym isSell price ts reason hnek
  refine ⟨acctB, hokB, ?_⟩
  rw [hbalB, hbal, hbatchk, total_margin_map_setLeverage, avg_entry_map_setLeverage,
    total_volume_map_setLeverage]
  rfl

/-- C1 witness: the spec's worked example — closing the Long (entry 100,
volume 2.5, margin 50) at 120 credits 50 + 50 and leaves balance 1050. -/
theorem close_realizes_profit_witness :
    ∃ acctA, closePositions acctOne "BTCUSDT" true 120 "t2" "sig" = Except.ok acctA
      ∧ acctA.balance = 1050 := by
  have hb : closedBatch acctOne "BTCUSDT" true = [posLong] := by
    simp [closedBatch, getPositions, acctOne, List.find?, List.filter, matchesClose, posLong]
  obtain ⟨acctA, hok, hbal, -⟩ :=
    close_realizes_leverage_neutral_profit acctOne "BTCUSDT" true 120 "t2" "sig"
      (by rw [hb]; simp)
      (by rw [hb]; norm_num [total_volume, posLong])
  refine ⟨acctA, hok, ?_⟩
  rw [hbal, hb]
  norm_num [total_margin, total_volume, posLong, acctOne]

/-! ## C4 -/

lemma ksStep_active {thr : ℚ} {st : KSState} (t : KSTick) (h : st.active = true) :
    ksStep thr st t = (st, false) := by
  simp [ksStep, h]

lemma ksStep_stale {thr : ℚ} {st : KSState} {t : KSTick}
    (h1 : st.active = false) (h2 : t.stale = true) :
    ksStep thr st t = ({ st with breachStart := none }, false) := by
  simp [ksStep, h1, h2]

lemma ksStep_breach_none {thr : ℚ} {st : KSState} {t : KSTick}
    (h1 : st.active = false) (h2 : t.stale = false) (h3 : thr ≤ t.lossPct)
    (h4 : st.breachStart = none) :
    ksStep thr st t = ({ st with breachStart := some t.now }, false) := by
  simp [ksStep, h1, h2, h3, h4]

lemma ksStep_breach_wait {thr : ℚ} {st : KSState} {t : KSTick} {s : ℚ}
    (h1 : st.active = false) (h2 : t.stale = false) (h3 : thr ≤ t.lossPct)
    (h4 : st.breachStart = some s) (h5 : ¬ KILL_SWITCH_DELAY ≤ t.now - s) :
    ksStep thr st t = (st, false) := by
  simp [ksStep, h1, h2, h3, h4, h5]

lemma ksStep_breach_fire {thr : ℚ} {st : KSState} {t : KSTick} {s : ℚ}
    (h1 : st.active = false) (h2 : t.stale = false) (h3 : thr ≤ t.lossPct)
    (h4 : st.breachStart = some s) (h5 : KILL_SWITCH_DELAY ≤ t.now - s) :
    ksStep thr st t = (⟨some s, true⟩, true) := by
  simp [ksStep, h1, h2, h3, h4, h5]

lemma ksStep_recover {thr : ℚ} {st : KSState} {t : KSTick}
    (h1 : st.active = false) (h3 : t.lossPct < thr) :
    ksStep thr st t = (⟨none, false⟩, false) := by
  obtain ⟨bs, act⟩ := st
  simp only at h1
  subst h1
  by_cases h2 : t.stale = true
  · simp [ksStep, h2]
  · simp [ksStep, h2, not_le.mpr h3]

lemma ksStep_fired_cond {thr : ℚ} {st : KSState} {t : KSTick}
    (h : (ksStep thr st t).2 = true) :
    st.active = false ∧ t.stale = false ∧ thr ≤ t.lossPct
      ∧ ∃ s, st.breachStart = some s ∧ KILL_SWITCH_DELAY ≤ t.now - s := by
  by_cases h1 : st.active = true
  · rw [ksStep_active t h1] at h
    exact absurd h (by simp)
  · have h1' : st.active = false := by simpa using h1
    by_cases h2 : t.stale = true
    · rw [ksStep_stale h1' h2] at h
      exact absurd h (by simp)
    · have h2' : t.stale = false := by simpa using h2
      by_cases h3 : thr ≤ t.lossPct
      · cases h4 : st.breachStart with
        | none =>
          rw [ksStep_breach_none h1' h2' h3 h4] at h
          exact absurd h (by simp)
        | some s =>
          by_cases h5 : KILL_SWITCH_DELAY ≤ t.now - s
          · exact ⟨h1', h2', h3, s, rfl, h5⟩
          · rw [ksStep_breach_wait h1' h2' h3 h4 h5] at h
            exact absurd h (by simp)
      · rw [ksStep_recover h1' (not_le.mp h3)] at h
        exact absurd h (by simp)

lemma ksStep_fired_active {thr : ℚ} {st : KSState} {t : KSTick}
    (h : (ksStep thr st t).2 = true) : (ksStep thr st t).1.active = true := by
  obtain ⟨h1, h2, h3, s, h4, h5⟩ := ksStep_fired_cond h
  rw [ksStep_breach_fire h1 h2 h3 h4 h5]

lemma runKS_cons (thr : ℚ) (st : KSState) (t : KSTick) (ts : List KSTick) :
    runKS thr st (t :: ts)
      = ((runKS thr (ksStep thr st t).1 ts).1,
          (if (ksStep thr st t).2 then 1 else 0) + (runKS thr (ksStep thr st t).1 ts).2) := rfl

lemma runKS_count_zero_of_active (thr : ℚ) :
    ∀ (trace : List KSTick) (st : KSState), st.active = true → (runKS thr st trace).2 = 0 := by
  intro trace
  induction trace with
  | nil => intro st _; rfl
  | cons t ts ih =>
    intro st h
    rw [runKS_cons, ksStep_active t h]
    simpa using ih st h

lemma runKS_count_le_one (thr : ℚ) :
    ∀ (trace : List KSTick) (st : KSState), (runKS thr st trace).2 ≤ 1 := by
  intro trace
  induction trace with
  | nil => intro st; exact Nat.zero_le 1
  | cons t ts ih =>
    intro st
    rw [runKS_cons]
    by_cases hf : (ksStep thr st t).2 = true
    · have := runKS_count_zero_of_active thr ts _ (ksStep_fired_active hf)
      simp [hf, this]
    · have hf' : (ksStep thr st t).2 = false := by simpa using hf
      simpa [hf'] using ih (ksStep thr st t).1

lemma runKS_fire_needs_continuous_breach (thr : ℚ) :
    ∀ (trace : List KSTick) (st : KSState), st.active = false →
      1 ≤ (runKS thr st trace).2 →
      (∃ pre mid post, trace = pre ++ mid ++ post
        ∧ (∀ u ∈ mid, breachTick thr u)
        ∧ ∃ a b, mid.head? = some a ∧ mid.getLast? = some b
            ∧ KILL_SWITCH_DELAY ≤ b.now - a.now)
      ∨ (∃ s mid post, st.breachStart = some s ∧ trace = mid ++ post
        ∧ (∀ u ∈ mid, breachTick thr u)
        ∧ ∃ b, mid.getLast? = some b ∧ KILL_SWITCH_DELAY ≤ b.now - s) := by
  intro trace
  induction trace with
  | nil =>
    intro st _ hcount
    exact absurd hcount (by simp [runKS])
  | cons t ts ih =>
    intro st hact hcount
    by_cases h2 : t.stale = true
    · rw [runKS_cons, ksStep_stale hact h2] at hcount
      simp only [if_false, Bool.false_eq_true, reduceIte, Nat.zero_add] at hcount
      rcases ih ⟨none, st.active⟩ hact hcount with ⟨pre, mid, post, hsplit, hmid, hw⟩ | ⟨s, mid, post, hbs, _, _⟩
      · exact Or.inl ⟨t :: pre, mid, post, by rw [hsplit]; rfl, hmid, hw⟩
      · exact absurd hbs (by simp)
    · have h2' : t.stale = false := by simpa using h2
      by_cases h3 : thr ≤ t.lossPct
      · cases h4 : st.breachStart with
        | none =>
          rw [runKS_cons, ksStep_breach_none hact h2' h3 h4] at hcount
          simp only [if_false, Bool.false_eq_true, reduceIte, Nat.zero_add] at hcount
          rcases ih ⟨some t.now, st.active⟩ hact hcount with ⟨pre, mid, post, hsplit, hmid, hw⟩ |
            ⟨s, mid, post, hbs, hsplit, hmid, b, hlast, hb⟩
          · exact Or.inl ⟨t :: pre, mid, post, by rw [hsplit]; rfl, hmid, hw⟩
          · have hs : t.now = s := Option.some.inj hbs
            subst hs
            have hmidne : mid ≠ [] := by
              intro hnil
              rw [hnil] at hlast
              exact absurd hlast (by simp)
            obtain ⟨m, ms, rfl⟩ := List.exists_cons_of_ne_nil hmidne
            refine Or.inl ⟨[], t :: m :: ms, post, by rw [hsplit]; rfl, ?_, t, b, rfl, ?_, hb⟩
            · intro u hu
              rcases List.mem_cons.mp hu with h | h
              · subst h; exact ⟨h2', h3⟩
              · exact hmid u h
            · rw [List.getLast?_cons_cons]
              exact hlast
        | some s =>
          by_cases h5 : KILL_SWITCH_DELAY ≤ t.now - s
          · refine Or.inr ⟨s, [t], ts, rfl, rfl, ?_, t, rfl, h5⟩
            intro u hu
            rcases List.mem_singleton.mp hu with h
            subst h
            exact ⟨h2', h3⟩
          · rw [runKS_cons, ksStep_breach_wait hact h2' h3 h4 h5] at hcount
            simp only [if_false, Bool.false_eq_true, reduceIte, Nat.zero_add] at hcount
            rcases ih st hact hcount with ⟨pre, mid, post, hsplit, hmid, hw⟩ |
              ⟨s', mid, post, hbs, hsplit, hmid, b, hlast, hb⟩
            · exact Or.inl ⟨t :: pre, mid, post, by rw [hsplit]; rfl, hmid, hw⟩
            · rw [h4] at hbs
              have hs : s = s' := Option.some.inj hbs
              subst hs
              have hmidne : mid ≠ [] := by
                intro hnil
                rw [hnil] at hlast
                exact absurd hlast (by simp)
              obtain ⟨m, ms, rfl⟩ := List.exists_cons_of_ne_nil hmidne
              refine Or.inr ⟨s, t :: m :: ms, post, rfl, by rw [hsplit]; rfl, ?_, b, ?_, hb⟩
              · intro u hu
                rcases List.mem_cons.mp hu with h | h
                · subst h; exact ⟨h2', h3⟩
                · exact hmid u h
              · rw [List.getLast?_cons_cons]
                exact hlast
      · rw [runKS_cons, ksStep_recover hact (not_le.mp h3)] at hcount
        simp only [if_false, Bool.false_eq_true, reduceIte, Nat.zero_add] at hcount
        rcases ih ⟨none, false⟩ rfl hcount with ⟨pre, mid, post, hsplit, hmid, hw⟩ | ⟨s, mid, post, hbs, _, _⟩
        · exact Or.inl ⟨t :: pre, mid, post, by rw [hsplit]; rfl, hmid, hw⟩
        · exact absurd hbs (by simp)

lemma runKS_fires_of_elapsed (thr : ℚ) :
    ∀ (ts : List KSTick) (s : ℚ), (∀ u ∈ ts, breachTick thr u) →
      (∃ u ∈ ts, KILL_SWITCH_DELAY ≤ u.now - s) →
      1 ≤ (runKS thr ⟨some s, false⟩ ts).2 := by
  intro ts
  induction ts with
  | nil =>
    intro s _ hex
    exact absurd hex (by simp)
  | cons t tl ih =>
    intro s hall hex
    obtain ⟨hstale, hloss⟩ := hall t (List.mem_cons_self t tl)
    by_cases h5 : KILL_SWITCH_DELAY ≤ t.now - s
    · rw [runKS_cons, ksStep_breach_fire rfl hstale hloss rfl h5]
      simp
    · rw [runKS_cons, ksStep_breach_wait rfl hstale hloss rfl h5]
      simp only [if_false, Bool.false_eq_true, reduceIte, Nat.zero_add]
      obtain ⟨u, hu, helapsed⟩ := hex
      rcases List.mem_cons.mp hu with h | h
      · subst h; exact absurd helapsed h5
      · exact ih s (fun v hv => hall v (List.mem_cons_of_mem t hv)) ⟨u, h, helapsed⟩

/-- C4: the kill switch (i) liquidates at most once per run; (ii) clears the
breach timer and takes no action whenever the drawdown is back below the
threshold; (iii) fires only with a breach timer at least `KILL_SWITCH_DELAY`
(300 s) old; (iv) whenever a run from the clean state liquidates, the trace
contains a contiguous segment of continuously breaching fresh-price ticks
spanning at least 300 s; and (v) a breach observed continuously from a first
tick through some tick 300 s or more later liquidates exactly once. -/
theorem kill_switch_debounced_single_liquidation (thr : ℚ) :
    (∀ (trace : List KSTick) (st : KSState), (runKS thr st trace).2 ≤ 1)
    ∧ (∀ (st : KSState) (t : KSTick), st.active = false → t.lossPct < thr →
        ksStep thr st t = (⟨none, false⟩, false))
    ∧ (∀ (st : KSState) (t : KSTick), (ksStep thr st t).2 = true →
        ∃ s, st.breachStart = some s ∧ KILL_SWITCH_DELAY ≤ t.now - s
          ∧ t.stale = false ∧ thr ≤ t.lossPct)
    ∧ (∀ trace : List KSTick, 1 ≤ (runKS thr ⟨none, false⟩ trace).2 →
        ∃ pre mid post, trace = pre ++ mid ++ post
          ∧ (∀ u ∈ mid, breachTick thr u)
          ∧ ∃ a b, mid.head? = some a ∧ mid.getLast? = some b
              ∧ KILL_SWITCH_DELAY ≤ b.now - a.now)
    ∧ (∀ (t0 : KSTick) (tl : List KSTick), breachTick thr t0 →
        (∀ u ∈ tl, breachTick thr u) →
        (∃ u ∈ tl, KILL_SWITCH_DELAY ≤ u.now - t0.now) →
        (runKS thr ⟨none, false⟩ (t0 :: tl)).2 = 1) := by
  refine ⟨fun trace st => runKS_count_le_one thr trace st,
    fun st t h1 h3 => ksStep_recover h1 h3, ?_, ?_, ?_⟩
  · intro st t h
    obtain ⟨h1, h2, h3, s, h4, h5⟩ := ksStep_fired_cond h
    exact ⟨s, h4, h5, h2, h3⟩
  · intro trace hcount
    rcases runKS_fire_needs_continuous_breach thr trace ⟨none, false⟩ rfl hcount with
      h | ⟨s, _, _, hbs, _⟩
    · exact h
    · exact absurd hbs (by simp)
  · intro t0 tl hb0 hall hex
    rw [runKS_cons, ksStep_breach_none rfl hb0.1 hb0.2 rfl]
    simp only [if_false, Bool.false_eq_true, reduceIte, Nat.zero_add]
    exact Nat.le_antisymm (runKS_count_le_one thr tl _) (runKS_fires_of_elapsed thr tl t0.now hall hex)

/-- C4 witness: with a 5 % threshold, a 6 % drawdown breaching at ticks 0
through 299 s and recovering at 305 s never liquidates, while breaching at 0
and again at 300 s liquidates exactly once; recovery at any tick clears the
breach timer. -/
theorem kill_switch_debounced_witness :
    (runKS 5 ⟨none, false⟩
        [⟨0, false, 6⟩, ⟨100, false, 6⟩, ⟨200, false, 6⟩, ⟨299, false, 6⟩,
          ⟨305, false, 1⟩, ⟨400, false, 6⟩]).2 = 0
    ∧ (runKS 5 ⟨none, false⟩ [⟨0, false, 6⟩, ⟨300, false, 6⟩]).2 = 1
    ∧ ksStep 5 ⟨some 0, false⟩ ⟨299, false, 1⟩ = (⟨none, false⟩, false) := by
  have h := kill_switch_debounced_single_liquidation (5 : ℚ)
  refine ⟨?_, ?_, ?_⟩
  · have hrec := h.2.1 ⟨some 0, false⟩ ⟨305, false, 1⟩ rfl (by norm_num)
    rw [runKS_cons, ksStep_breach_none rfl rfl (by norm_num) rfl]
    rw [runKS_cons, ksStep_breach_wait rfl rfl (by norm_num) rfl (by norm_num [KILL_SWITCH_DELAY])]
    rw [runKS_cons, ksStep_breach_wait rfl rfl (by norm_num) rfl (by norm_num [KILL_SWITCH_DELAY])]
    rw [runKS_cons, ksStep_breach_wait rfl rfl (by norm_num) rfl (by norm_num [KILL_SWITCH_DELAY])]
    rw [runKS_cons, hrec]
    rw [runKS_cons, ksStep_breach_none rfl rfl (by norm_num) rfl]
    simp [runKS]
  · exact h.2.2.2.2 ⟨0, false, 6⟩ [⟨300, false, 6⟩] ⟨rfl, by norm_num⟩
      (by intro u hu; rcases List.mem_singleton.mp hu with h'; subst h'; exact ⟨rfl, by norm_num⟩)
      ⟨⟨300, false, 6⟩, List.mem_singleton.mpr rfl, by norm_num [KILL_SWITCH_DELAY]⟩
  · exact h.2.1 ⟨some 0, false⟩ ⟨299, false, 1⟩ rfl (by norm_num)

/-! ## C5 -/

/-- C5 counterexample: the `volume ≤ 0` rejection claimed by the spec does
not exist in the open branch — an account with balance 0.001 buying at
price 100000 has its volume rounded down to exactly 0, yet the open
**succeeds** and a zero-volume position is created. -/
theorem open_accepts_zero_volume :
    openVolumeOf (openPosition acctTinyBalance "BTCUSDT" true 100000 5 (5 / 2) 3 "t0" "sig")
      = some 0 := by
  unfold openVolumeOf openPosition
  rw [if_neg (by norm_num [acctTinyBalance]),
    if_neg (by simp [acctTinyBalance, getPositions, List.find?])]
  simp only [Except.toOption, Option.map]
  norm_num [acctTinyBalance, roundTo, round_eq]

lemma openPosition_insufficient (acct : Account) (sym : String) (isBuy : Bool)
    (price : ℚ) (lev : ℤ) (slPct tpPct : ℚ) (ts reason : String)
    (h : acct.balance ≤ 0) :
    openPosition acct sym isBuy price lev slPct tpPct ts reason
      = Except.error WebhookError.insufficientBalance := by
  have hm : acct.balance * (1 / 20) ≤ 0 :=
    mul_nonpos_iff.mpr (Or.inr ⟨h, by norm_num⟩)
  unfold openPosition
  rw [if_pos hm]

lemma openPosition_limit (acct : Account) (sym : String) (isBuy : Bool)
    (price : ℚ) (lev : ℤ) (slPct tpPct : ℚ) (ts reason : String)
    (hb : 0 < acct.balance) (h5 : 5 ≤ (getPositions acct.positions sym).length) :
    openPosition acct sym isBuy price lev slPct tpPct ts reason
      = Except.error WebhookError.positionLimitReached := by
  have hm : ¬ acct.balance * (1 / 20) ≤ 0 :=
    not_le.mpr (mul_pos hb (by norm_num))
  unfold openPosition
  rw [if_neg hm, if_pos h5]

lemma webhook_open_dispatch (acct : Account) (sym : String) (pr : ℚ) (lev : ℤ)
    (slPct tpPct : ℚ) (ts reason : String) (hsym : sym ≠ "") (hpr : 0 < pr) :
    webhook false acct Action.buy sym true (some pr) lev slPct tpPct ts reason
      = (openPosition acct sym true pr lev slPct tpPct ts reason).map (fun out => out.1) := by
  unfold webhook
  rw [if_neg (by simp), if_neg hsym]
  simp only [if_neg (show ¬ ¬ (true : Bool) = true by simp), if_neg (not_le.mpr hpr)]
  rfl

/-- C5 amended: the open branch of `main.py` rejects, without mutating the
stored account, exactly two of the claimed cases — `marginUsed ≤ 0` (which,
since `marginUsed = balance * 0.05`, is precisely `balance ≤ 0`) with the
insufficient-balance error, and a symbol already holding 5 positions with
the position-limit error, so a 6th open attempt leaves the account
untouched.  There is no separate `balance < marginUsed` rejection (it is
unreachable: `0.05 * balance < balance` whenever the margin check passes)
and no `volume ≤ 0` rejection at all — a zero-volume position can be
opened. -/
theorem open_rejections_margin_and_limit
    (acct : Account) (sym : String) (isBuy : Bool) (price : ℚ) (lev : ℤ)
    (slPct tpPct : ℚ) (ts reason : String) (pr : ℚ) :
    (acct.balance ≤ 0 →
      openPosition acct sym isBuy price lev slPct tpPct ts reason
        = Except.error WebhookError.insufficientBalance)
    ∧ (0 < acct.balance → 5 ≤ (getPositions acct.positions sym).length →
        openPosition acct sym isBuy price lev slPct tpPct ts reason
          = Except.error WebhookError.positionLimitReached)
    ∧ (0 < acct.balance → 5 ≤ (getPositions acct.positions sym).length →
        sym ≠ "" → 0 < pr →
        webhookOutcome false acct Action.buy sym true (some pr) lev slPct tpPct ts reason
          = (acct, false)) := by
  refine ⟨openPosition_insufficient acct sym isBuy price lev slPct tpPct ts reason,
    openPosition_limit acct sym isBuy price lev slPct tpPct ts reason, ?_⟩
  intro hb h5 hsym hpr
  unfold webhookOutcome
  rw [webhook_open_dispatch acct sym pr lev slPct tpPct ts reason hsym hpr,
    openPosition_limit acct sym true pr lev slPct tpPct ts reason hb h5]
  rfl

/-- C5 witness: the 6th open attempt on a symbol already holding 5
positions fails with the position-limit error and leaves the stored account
(and all 5 positions) untouched. -/
theorem open_rejections_witness :
    webhookOutcome false acctFivePositions Action.buy "BTCUSDT" true (some 100)
        5 (5 / 2) 3 "t0" "sig"
      = (acctFivePositions, false) := by
  exact (open_rejections_margin_and_limit acctFivePositions "BTCUSDT" true 100 5
      (5 / 2) 3 "t0" "sig" 100).2.2
    (by norm_num [acctFivePositions])
    (by simp [acctFivePositions, getPositions, List.find?])
    (by simp)
    (by norm_num)

/-! ## C6 -/

lemma sum_map_add_split {α : Type} (l : List α) (f g : α → ℚ) :
    (l.map (fun x => f x + g x)).sum = (l.map f).sum + (l.map g).sum := by
  induction l with
  | nil => simp
  | cons x xs ih =>
    simp only [List.map_cons, List.sum_cons, ih]
    ring

lemma priceOrZero_of_not_found (prices : List (String × ℚ)) (sym : String)
    (h : prices.find? (fun q => q.1 = sym) = none) : priceOrZero prices sym = 0 := by
  unfold priceOrZero
  rw [h]

/-- C6 counterexample: with one long position (entry 100, volume 2, margin
40, balance 500) and an empty price map, the dashboard equity evaluates the
position at price **0** — contributing `-entry*volume = -200`, not the 0
unrealized PnL the claim asserts — so the computed equity is 340, not 540. -/
theorem equity_no_quote_counterexample :
    dashboardEquity acctNoQuote [] = 340
    ∧ equityClaimC6 acctNoQuote [] = 540
    ∧ dashboardEquity acctNoQuote [] ≠ equityClaimC6 acctNoQuote [] := by
  have h1 : dashboardEquity acctNoQuote [] = 340 := by
    norm_num [dashboardEquity, calculate_position_stats, statOf, acctNoQuote, posNoQuote,
      priceOrZero, List.find?]
  have h2 : equityClaimC6 acctNoQuote [] = 540 := by
    norm_num [equityClaimC6, calculate_position_stats, statOf, acctNoQuote, posNoQuote,
      priceOrZero, List.find?]
  refine ⟨h1, h2, ?_⟩
  rw [h1, h2]
  norm_num

/-- C6 amended: equity equals `balance + Σ (marginUsed + unrealizedPnL)`
over every open position, where a position whose symbol has **no available
quote** is evaluated at price 0 — contributing `-entryPrice * volume` for a
Long and `+entryPrice * volume` for a Short, not 0 — while its margin still
counts toward equity. -/
theorem equity_is_balance_plus_margin_plus_pnl
    (acct : Account) (prices : List (String × ℚ)) :
    dashboardEquity acct prices
      = acct.balance
        + ((calculate_position_stats acct.positions prices).map
            (fun st => st.marginUsed + st.pnl)).sum
    ∧ (∀ sym : String, prices.find? (fun q => q.1 = sym) = none →
        ∀ p : Position, (statOf sym (priceOrZero prices sym) p).pnl
          = (match p.side with
             | Side.long => (0 - p.entryPrice) * p.volume
             | Side.short => (p.entryPrice - 0) * p.volume)) := by
  constructor
  · unfold dashboardEquity
    rw [sum_map_add_split]
    ring
  · intro sym h p
    rw [priceOrZero_of_not_found prices sym h]
    cases hs : p.side <;> simp [statOf, hs]

/-- C6 witness: the no-quote position's dashboard PnL is `-entry * volume`
(here `-200`), while its margin still counts in the equity sum. -/
theorem equity_no_quote_witness :
    (statOf "XRPUSDT" (priceOrZero [] "XRPUSDT") posNoQuote).pnl
        = (0 - posNoQuote.entryPrice) * posNoQuote.volume
    ∧ dashboardEquity acctNoQuote []
        = acctNoQuote.balance
          + ((calculate_position_stats acctNoQuote.positions []).map
              (fun st => st.marginUsed + st.pnl)).sum := by
  have h := equity_is_balance_plus_margin_plus_pnl acctNoQuote []
  refine ⟨?_, h.1⟩
  have h2 := h.2 "XRPUSDT" rfl posNoQuote
  simpa using h2

/-! ## C7 -/

lemma liquidateEntries_positions_shape (ts reason : String) (prices : List (String × ℚ)) :
    ∀ (entries : List (String × List Position)) (bal : ℚ),
      (liquidateEntries ts reason prices bal entries).2.1
        = entries.map (fun e => if priceOrZero prices e.1 ≤ 0 then e else (e.1, [])) := by
  intro entries
  induction entries with
  | nil => intro bal; rfl
  | cons e rest ih =>
    intro bal
    obtain ⟨sym, l⟩ := e
    by_cases h : priceOrZero prices sym ≤ 0
    · simp [liquidateEntries, h, ih]
    · simp [liquidateEntries, h, ih]

/-- C7 counterexample: liquidating an account holding positions on `"AAA"`
(priced) and `"BBB"` (no quote) closes only `"AAA"`, leaves `"BBB"` open —
and the kill switch is set active anyway, contradicting the claim that
`killSwitchActive` stays false until every position is confirmed closed. -/
theorem kill_switch_active_despite_open_position :
    (ksFire acctPartial [("AAA", 90)] "t3").2 = true
    ∧ getPositions (ksFire acctPartial [("AAA", 90)] "t3").1.positions "BBB"
        = [posShortLone]
    ∧ [posShortLone] ≠ ([] : List Position) := by
  refine ⟨rfl, ?_, by simp⟩
  show getPositions
      (liquidate_all_positions acctPartial [("AAA", 90)] "t3" "Kill Switch Triggered").1.positions
      "BBB" = [posShortLone]
  simp only [liquidate_all_positions]
  rw [show (liquidateEntries "t3" "Kill Switch Triggered" [("AAA", 90)]
        acctPartial.balance acctPartial.positions).2.1
      = acctPartial.positions.map
          (fun e => if priceOrZero [("AAA", 90)] e.1 ≤ 0 then e else (e.1, []))
    from liquidateEntries_positions_shape "t3" "Kill Switch Triggered" [("AAA", 90)]
      acctPartial.positions acctPartial.balance]
  have hA : priceOrZero [("AAA", (90 : ℚ))] "AAA" = 90 := by
    simp [priceOrZero, List.find?]
  have hB : priceOrZero [("AAA", (90 : ℚ))] "BBB" = 0 := by
    simp [priceOrZero, List.find?]
  have h90 : ¬ (90 : ℚ) ≤ 0 := by norm_num
  simp [acctPartial, hA, hB, h90, getPositions, List.find?]

/-- C7 amended: the kill-switch firing branch sets `killSwitchActive := true`
unconditionally, even when liquidation partially fails — symbols with no
valid price are skipped and keep their open positions verbatim — and there
is no retry: once active, every subsequent risk tick skips the account
entirely. -/
theorem kill_switch_fire_unconditional_active
    (acct : Account) (prices : List (String × ℚ)) (ts : String) (thr : ℚ) :
    (ksFire acct prices ts).2 = true
    ∧ (ksFire acct prices ts).1.positions
        = acct.positions.map (fun e => if priceOrZero prices e.1 ≤ 0 then e else (e.1, []))
    ∧ (∀ st : KSState, st.active = true → ∀ t : KSTick, ksStep thr st t = (st, false)) := by
  refine ⟨rfl, ?_, fun st h t => ksStep_active t h⟩
  show (liquidate_all_positions acct prices ts "Kill Switch Triggered").1.positions = _
  simp only [liquidate_all_positions]
  exact liquidateEntries_positions_shape ts "Kill Switch Triggered" prices
    acct.positions acct.balance

/-- C7 amended-claim witness: a concrete partially-failing liquidation still
reports the switch as fired, and an already-active account's tick is a
no-op (no retry of the liquidation). -/
theorem kill_switch_fire_unconditional_witness :
    (ksFire acctPartial [("AAA", 90)] "t6").2 = true
    ∧ ksStep 5 ⟨none, true⟩ ⟨17, false, 50⟩ = (⟨none, true⟩, false) := by
  have h := kill_switch_fire_unconditional_active acctPartial [("AAA", 90)] "t6" 5
  exact ⟨h.1, h.2.2 ⟨none, true⟩ rfl ⟨17, false, 50⟩⟩

/-! ## C8 -/

/-- C8 counterexample: on a tick where bot `0` raises, the per-tick loop
returns no results at all — bot `1`, which evaluates fine on its own, is
**not** evaluated on that tick, contradicting the claim that one account's
exception does not prevent the evaluation of the others. -/
theorem risk_tick_exception_skips_rest :
    tickBots evalSkipDemo [0, 1] = ([], true) ∧ evalSkipDemo 1 = some 1 := by
  exact ⟨rfl, rfl⟩

/-- C8 amended: an exception in one account's evaluation is caught at the
tick level (the loop itself survives: every tick of every trace is still
processed, and later ticks are unaffected), but it aborts the remainder of
that same tick — the accounts after the faulting one are skipped until the
next tick. -/
theorem risk_loop_survives_but_tick_aborts
    (α β : Type) (evalBot : α → Option β) (pre : List α) (a : α) (post : List α)
    (ticks t1 t2 : List (List α)) :
    (evalBot a = none →
      tickBots evalBot (pre ++ a :: post) = ((tickBots evalBot pre).1, true))
    ∧ runLoop evalBot (t1 ++ t2) = runLoop evalBot t1 ++ runLoop evalBot t2
    ∧ (runLoop evalBot ticks).length = ticks.length := by
  refine ⟨?_, by simp [runLoop], by simp [runLoop]⟩
  intro h
  induction pre with
  | nil => simp [tickBots, h]
  | cons x xs ih =>
    cases hx : evalBot x with
    | none => simp [tickBots, hx]
    | some b => simp [tickBots, hx, ih]

/-- C8 witness: with the faulting bot `0` in the middle of a tick, the bots
before it are evaluated, the bots after it are dropped, and the exception
flag is reported. -/
theorem risk_loop_survives_witness :
    tickBots evalSkipDemo ([2] ++ 0 :: [1]) = ((tickBots evalSkipDemo [2]).1, true) := by
  exact (risk_loop_survives_but_tick_aborts ℕ ℕ evalSkipDemo [2] 0 [1] [] [] []).1 rfl

/-! ## C9 -/

lemma getPositions_setPositions (ps : List (String × List Position)) (sym : String)
    (l : List Position) : getPositions (setPositions ps sym l) sym = l := by
  induction ps with
  | nil => simp [setPositions, getPositions, List.find?]
  | cons e rest ih =>
    by_cases h : e.1 = sym
    · simp [setPositions, h, getPositions, List.find?]
    · simpa [setPositions, h, getPositions, List.find?] using ih

/-- Closing an empty batch is rejected with `NoMatchingPositions`. -/
lemma closePositions_error_of_empty (acct : Account) (sym : String) (isSell : Bool)
    (price : ℚ) (ts reason : String) (h : closedBatch acct sym isSell = []) :
    closePositions acct sym isSell price ts reason
      = Except.error WebhookError.noMatchingPositions := by
  have hE : ((getPositions acct.positions sym).filter (matchesClose isSell)).isEmpty = true := by
    rw [List.isEmpty_iff]
    exact h
  simp [closePositions, hE]

lemma closedBatch_record (isSell : Bool) (bal : ℚ) (ps : List (String × List Position))
    (sym : String) (l : List Position) (tl : List TradeRecord) :
    closedBatch { balance := bal, positions := setPositions ps sym l, tradeLog := tl } sym isSell
      = l.filter (matchesClose isSell) := by
  unfold closedBatch
  show (getPositions (setPositions ps sym l) sym).filter (matchesClose isSell) = _
  rw [getPositions_setPositions]

/-- After a successful close, no position of the closed side remains for
the symbol: a second close of the same side must fail. -/
lemma closedBatch_after_close (acct : Account) (sym : String) (isSell : Bool)
    (price : ℚ) (ts reason : String) (acctA : Account)
    (hok : closePositions acct sym isSell price ts reason = Except.ok acctA) :
    closedBatch acctA sym isSell = [] := by
  cases hE : ((getPositions acct.positions sym).filter (matchesClose isSell)).isEmpty with
  | true =>
    rw [closePositions_error_of_empty acct sym isSell price ts reason
      (List.isEmpty_iff.mp hE)] at hok
    exact absurd hok (by simp)
  | false =>
    simp only [closePositions, hE, Bool.false_eq_true, if_false, Except.ok.injEq] at hok
    subst hok
    rw [closedBatch_record]
    rw [List.filter_eq_nil_iff]
    intro q hq hmatch
    obtain ⟨hq1, hq2⟩ := List.mem_filter.mp hq
    have : q ∈ (getPositions acct.positions sym).filter (matchesClose isSell) :=
      List.mem_filter.mpr ⟨hq1, hmatch⟩
    simp [this] at hq2

lemma closedBatch_acctOne : closedBatch acctOne "BTCUSDT" true = [posLong] := by
  simp [closedBatch, getPositions, acctOne, List.find?, List.filter, matchesClose, posLong]

/-- C9 counterexample: with one open long position, two close handlers that
interleave as the unlocked code permits (`file_lock` only wraps
`load_account`/`save_account` individually) **both** load the same
snapshot, both succeed, and the final store holds a single close record —
whereas the serial execution of the same two calls has the second fail with
`NoMatchingPositions`.  The responses `(success, success)` match no serial
order, refuting serializability and the only-one-succeeds claim. -/
theorem concurrent_closes_both_report_success :
    (twoClosesInterleaved acctOne "BTCUSDT" true 120 "t4" "sig").2 = (true, true)
    ∧ (twoClosesSerial acctOne "BTCUSDT" true 120 "t4" "sig").2 = (true, false)
    ∧ (twoClosesInterleaved acctOne "BTCUSDT" true 120 "t4" "sig").1.tradeLog.length = 1 := by
  obtain ⟨acctA, hok, -, r, hlog, -⟩ :=
    closePositions_ok acctOne "BTCUSDT" true 120 "t4" "sig"
      (by rw [closedBatch_acctOne]; simp)
  have hfail : closePositions acctA "BTCUSDT" true 120 "t4" "sig"
      = Except.error WebhookError.noMatchingPositions :=
    closePositions_error_of_empty acctA "BTCUSDT" true 120 "t4" "sig"
      (closedBatch_after_close acctOne "BTCUSDT" true 120 "t4" "sig" acctA hok)
  refine ⟨?_, ?_, ?_⟩
  · simp [twoClosesInterleaved, closeOutcome, hok]
  · simp [twoClosesSerial, closeOutcome, hok, hfail]
  · simp [twoClosesInterleaved, closeOutcome, hok]
    have : acctA.tradeLog = acctOne.tradeLog ++ [r] := hlog
    simp [this, acctOne]

/-- C9 amended: the webhook holds no lock across its load-compute-save
sequence, so two concurrent closes of the same symbol and side that both
load before either saves both report success; the final persisted state is
that of a single serial close (the other close's effect is a lost update,
and in particular this race does not by itself drive the balance negative —
the last write is an absolute snapshot); `NoMatchingPositions` is only
reported under serial execution, where the second close fails. -/
theorem unlocked_concurrent_closes_lose_update
    (acct : Account) (sym : String) (isSell : Bool) (price : ℚ) (ts reason : String)
    (hne : closedBatch acct sym isSell ≠ []) :
    (twoClosesInterleaved acct sym isSell price ts reason).2 = (true, true)
    ∧ (twoClosesInterleaved acct sym isSell price ts reason).1
        = (closeOutcome acct sym isSell price ts reason).1
    ∧ (twoClosesSerial acct sym isSell price ts reason).2.1 = true
    ∧ (twoClosesSerial acct sym isSell price ts reason).2.2 = false := by
  obtain ⟨acctA, hok, -, -⟩ := closePositions_ok acct sym isSell price ts reason hne
  have hfail : closePositions acctA sym isSell price ts reason
      = Except.error WebhookError.noMatchingPositions :=
    closePositions_error_of_empty acctA sym isSell price ts reason
      (closedBatch_after_close acct sym isSell price ts reason acctA hok)
  refine ⟨?_, ?_, ?_, ?_⟩
  · simp [twoClosesInterleaved, closeOutcome, hok]
  · simp [twoClosesInterleaved, closeOutcome, hok]
  · simp [twoClosesSerial, closeOutcome, hok]
  · simp [twoClosesSerial, closeOutcome, hok, hfail]

/-- C9 witness: the lost-update race on the worked-example account — both
interleaved closes succeed, while the serial second close fails. -/
theorem unlocked_concurrent_closes_witness :
    (twoClosesInterleaved acctOne "BTCUSDT" true 120 "t5" "sig").2 = (true, true)
    ∧ (twoClosesSerial acctOne "BTCUSDT" true 120 "t5" "sig").2.2 = false := by
  have h := unlocked_concurrent_closes_lose_update acctOne "BTCUSDT" true 120 "t5" "sig"
    (by rw [closedBatch_acctOne]; simp)
  exact ⟨h.1, h.2.2.2⟩

end CoinBot
